import Mathlib

/-!
# Verification of the sync-diff-inspector report aggregator

A shallow embedding of `sync_diff_inspector/report/report.go` (package
`report`), together with proofs about its operations.

Modelling conventions:

* Go maps (`map[string]T`) become association lists `List (String × T)`;
  `alookup` returns the first binding of a key, `alistInsert` replaces the
  first binding (or appends), matching pointer-based in-place update of the
  first (unique, in Go) occurrence.  A nil map is the empty list.
* A Go `error` value becomes `Option String` (`none` = nil).
* `time.Time`/`time.Duration`/byte sizes become `Int`; operations that read
  the clock take an explicit `now : Int` argument.
* Code whose Go source dereferences a nil pointer is embedded as an
  `Option`-valued function returning `none` at exactly those inputs.
* `chunk.ChunkID` and `utils.UniqueID` live in other packages of the
  repository whose sources are not part of this development; they are
  modelled from the specification (see their doc comments).
-/

namespace SyncDiffReport

/-- Go string constant `Pass` of report.go. -/
def Pass : String := "pass"

/-- Go string constant `Fail` of report.go. -/
def Fail : String := "fail"

/-- Go string constant `Error` of report.go. -/
def Error : String := "error"

/-- Modelled from the spec: a ChunkID is `(tableIndexHint, chunkSequenceInTable,
totalChunksInTable)`, "a stable, totally-ordered identifier; comparison is
lexicographic on these fields"; it "serializes to/from a canonical string
form".  (`sync_diff_inspector/chunk` is not among the given source files.) -/
structure ChunkID where
  tableIndex : Nat
  chunkIndex : Nat
  chunkCnt : Nat
deriving DecidableEq

/-- Modelled from the spec: canonical string form of a ChunkID. -/
def ChunkID.ToString (c : ChunkID) : String :=
  toString c.tableIndex ++ ":" ++ toString c.chunkIndex ++ ":" ++ toString c.chunkCnt

/-- Split a character list at each colon. -/
def splitColon : List Char → List (List Char)
  | [] => [[]]
  | c :: rest =>
    let groups := splitColon rest
    if c = ':' then [] :: groups
    else
      match groups with
      | [] => [[c]]
      | g :: gs => (c :: g) :: gs

/-- Parse a non-empty decimal digit string. -/
def parseNatDigits : List Char → Option Nat → Option Nat
  | [], acc => acc
  | c :: rest, acc =>
    if '0'.toNat ≤ c.toNat ∧ c.toNat ≤ '9'.toNat then
      parseNatDigits rest (some ((acc.getD 0) * 10 + (c.toNat - '0'.toNat)))
    else none

/-- Modelled from the spec: parsing the canonical string form back into a
ChunkID; fails on anything that is not three colon-separated decimal
numbers. -/
def ChunkID.FromString (s : String) : Option ChunkID :=
  match (splitColon s.data).map (fun g => parseNatDigits g none) with
  | [some a, some b, some c] => some ⟨a, b, c⟩
  | _ => none

/-- Modelled from the spec: lexicographic comparison of ChunkIDs, returning
a negative/zero/positive integer like a Go three-way compare. -/
def ChunkID.Compare (a b : ChunkID) : Int :=
  if a.tableIndex < b.tableIndex then -1
  else if b.tableIndex < a.tableIndex then 1
  else if a.chunkIndex < b.chunkIndex then -1
  else if b.chunkIndex < a.chunkIndex then 1
  else if a.chunkCnt < b.chunkCnt then -1
  else if b.chunkCnt < a.chunkCnt then 1
  else 0

/-- Modelled from the spec: `utils.UniqueID(schema, table)`, the "unique
ordering key" of a table (`sync_diff_inspector/utils` is not among the given
source files); a schema-qualified key string. -/
def UniqueID (schema table : String) : String := schema ++ ":" ++ table

/-- Go byte-wise `<` on strings, computed structurally over the character
data (UTF-8 byte order and code-point order agree). -/
def strLt : List Char → List Char → Bool
  | [], [] => false
  | [], _ :: _ => true
  | _ :: _, [] => false
  | a :: as, b :: bs =>
    if a.toNat < b.toNat then true
    else if b.toNat < a.toNat then false
    else strLt as bs

/-- Go `a >= b` on strings. -/
def strGe (a b : String) : Bool := !strLt a.data b.data

/-- Modelled from the spec: `dbutil.TableName(schema, table)`, the quoted
display name of a table (package `pkg/dbutil` is not among the given source
files). -/
def TableName (schema table : String) : String :=
  "`" ++ schema ++ "`.`" ++ table ++ "`"

/-- Modelled from the spec: `config.LogFileName` (package
`sync_diff_inspector/config` is not among the given source files). -/
def LogFileName : String := "sync_diff.log"

/-- ChunkResult of report.go: rows to add / rows to delete for one chunk. -/
structure ChunkResult where
  RowsAdd : Int
  RowsDelete : Int
deriving DecidableEq

/-- TableResult of report.go: the per-table check outcome. -/
structure TableResult where
  Schema : String
  Table : String
  StructEqual : Bool
  DataSkip : Bool
  DataEqual : Bool
  MeetError : Option String
  ChunkMap : List (String × ChunkResult)
deriving DecidableEq

/-- The fields of `config.TaskConfig` that report.go reads. -/
structure TaskConfig where
  OutputDir : String
  FixDir : String
deriving DecidableEq

/-- Report of report.go (the lock is a no-op in this sequential model). -/
structure Report where
  Result : String
  PassNum : Int
  FailedNum : Int
  TableResults : List (String × List (String × TableResult))
  StartTime : Int
  Duration : Int
  TotalSize : Int
  SourceConfig : List String
  TargetConfig : String
  task : TaskConfig
deriving DecidableEq

/-- `common.TableDiff`, reduced to the two fields report.go reads. -/
structure TableDiff where
  Schema : String
  Table : String
deriving DecidableEq

/-! ## Association-list primitives (the model of Go maps) -/

/-- First binding of a key. -/
def alookup {α : Type} (k : String) : List (String × α) → Option α
  | [] => none
  | (k', v) :: rest => if k' = k then some v else alookup k rest

/-- Replace the first binding of a key, or append a new one. -/
def alistInsert {α : Type} (k : String) (v : α) : List (String × α) → List (String × α)
  | [] => [(k, v)]
  | (k', v') :: rest => if k' = k then (k, v) :: rest else (k', v') :: alistInsert k v rest

/-- Apply a function to the first binding of a key, if any. -/
def alistModify {α : Type} (k : String) (f : α → α) : List (String × α) → List (String × α)
  | [] => []
  | (k', v) :: rest => if k' = k then (k', f v) :: rest else (k', v) :: alistModify k f rest

/-- `r.TableResults[schema][table]` as Go evaluates it: `none` where Go
yields a nil `*TableResult`. -/
def lookupTR (r : Report) (schema table : String) : Option TableResult :=
  (alookup schema r.TableResults).bind (fun tm => alookup table tm)

/-- Store an updated TableResult back at its place (the model of mutating
the struct through the map's pointer). -/
def updateTR (r : Report) (schema table : String) (tr : TableResult) : Report :=
  { r with TableResults := alistModify schema (alistInsert table tr) r.TableResults }

/-! ## The operations of report.go -/

/-- NewReport of report.go: fresh report, `Result` starts at `Pass`. -/
def NewReport (task : TaskConfig) : Report :=
  { Result := Pass, PassNum := 0, FailedNum := 0, TableResults := [],
    StartTime := 0, Duration := 0, TotalSize := 0,
    SourceConfig := [], TargetConfig := "", task := task }

/-- The optimistic TableResult Init seeds for a configured table. -/
def freshTableResult (schema table : String) : TableResult :=
  { Schema := schema, Table := table, StructEqual := true, DataSkip := false,
    DataEqual := true, MeetError := none, ChunkMap := [] }

/-- Init of report.go: record start time and config texts, then seed one
optimistic TableResult per configured table. -/
def Report.Init (r : Report) (now : Int) (tableDiffs : List TableDiff)
    (sourceConfig : List String) (targetConfig : String) : Report :=
  tableDiffs.foldl
    (fun r td =>
      let tm := (alookup td.Schema r.TableResults).getD []
      { r with
          TableResults :=
            alistInsert td.Schema
              (alistInsert td.Table (freshTableResult td.Schema td.Table) tm)
              r.TableResults })
    { r with StartTime := now, SourceConfig := sourceConfig, TargetConfig := targetConfig }

/-- Inner loop of LoadReport: `r.TableResults[schema][table] = result` for
each table of one snapshot schema. -/
def loadTables : List (String × TableResult) → List (String × TableResult) →
    List (String × TableResult)
  | [], base => base
  | (t, tr) :: rest, base => loadTables rest (alistInsert t tr base)

/-- Outer loop of LoadReport over the snapshot's schemas. -/
def loadSchemas : List (String × List (String × TableResult)) →
    List (String × List (String × TableResult)) →
    List (String × List (String × TableResult))
  | [], acc => acc
  | (s, tm) :: rest, acc =>
    loadSchemas rest (alistInsert s (loadTables tm ((alookup s acc).getD [])) acc)

/-- LoadReport of report.go: reset StartTime to now, copy Duration and
TotalSize from the loaded snapshot, merge in its TableResults; every other
field is untouched. -/
def Report.LoadReport (r : Report) (now : Int) (reportInfo : Report) : Report :=
  { r with StartTime := now, Duration := reportInfo.Duration,
           TotalSize := reportInfo.TotalSize,
           TableResults := loadSchemas reportInfo.TableResults r.TableResults }

/-- SetTableStructCheckResult of report.go.  `none` models the nil-pointer
dereference Go performs when the `(schema, table)` entry is absent. -/
def Report.SetTableStructCheckResult (r : Report) (schema table : String)
    (equal skip : Bool) : Option Report :=
  (lookupTR r schema table).map (fun tr =>
    let r' := updateTR r schema table { tr with StructEqual := equal, DataSkip := skip }
    if ¬equal = true ∧ r'.Result ≠ Error then { r' with Result := Fail } else r')

/-- SetTableDataCheckResult of report.go.  On an equal chunk nothing
happens; on an unequal chunk the chunk's ChunkResult accumulates (created
at zero if absent), DataEqual flips to false, and Result escalates to Fail
unless it is already Error.  `none` models the nil dereference on a missing
table entry. -/
def Report.SetTableDataCheckResult (r : Report) (schema table : String) (equal : Bool)
    (rowsAdd rowsDelete : Int) (id : ChunkID) : Option Report :=
  if equal = true then some r
  else
    (lookupTR r schema table).map (fun tr =>
      let key := id.ToString
      let old := (alookup key tr.ChunkMap).getD { RowsAdd := 0, RowsDelete := 0 }
      let cr : ChunkResult :=
        { RowsAdd := old.RowsAdd + rowsAdd, RowsDelete := old.RowsDelete + rowsDelete }
      let r' := updateTR r schema table
        { tr with DataEqual := false, ChunkMap := alistInsert key cr tr.ChunkMap }
      if r'.Result ≠ Error then { r' with Result := Fail } else r')

/-- SetTableMeetError of report.go.  When the schema has no entry, a fresh
zero-valued TableResult carrying only the error is created and the function
returns early, leaving `Result` alone; when the schema entry exists, the
table's MeetError is set and `Result` becomes Error.  `none` models the nil
dereference when the schema entry exists but the table entry does not. -/
def Report.SetTableMeetError (r : Report) (schema table : String) (err : String) :
    Option Report :=
  match alookup schema r.TableResults with
  | none =>
    some { r with
            TableResults :=
              alistInsert schema
                [(table,
                  { Schema := "", Table := "", StructEqual := false, DataSkip := false,
                    DataEqual := false, MeetError := some err, ChunkMap := [] })]
                r.TableResults }
  | some tm =>
    match alookup table tm with
    | none => none
    | some tr =>
      some { updateTR r schema table { tr with MeetError := some err } with Result := Error }

/-- The `(schema, table)` pairs of a report, in iteration order. -/
def tablePairs (r : Report) : List (String × String) :=
  r.TableResults.flatMap (fun p => p.2.map (fun q => (p.1, q.1)))

/-- Loop body of CalculateTotalSize over a list of table keys; `sizeOf` is
the model of `utils.GetTableSize` (a size and an optional error). -/
def calcSizeGo (sizeOf : String → String → Int × Option String) :
    List (String × String) → Report → Option Report
  | [], r => some r
  | p :: rest, r =>
    let sz := sizeOf p.1 p.2
    let step : Option Report :=
      match sz.2 with
      | some e => r.SetTableMeetError p.1 p.2 e
      | none => some r
    (step.map (fun r1 =>
      if sz.1 = 0 then r1 else { r1 with TotalSize := r1.TotalSize + sz.1 })).bind
      (calcSizeGo sizeOf rest)

/-- CalculateTotalSize of report.go: for every table, fetch its size; on a
fetch error call SetTableMeetError; a zero size only logs a warning,
a nonzero size accumulates into TotalSize. -/
def Report.CalculateTotalSize (r : Report)
    (sizeOf : String → String → Int × Option String) : Option Report :=
  calcSizeGo sizeOf (tablePairs r) r

/-! ## Summary and console output -/

/-- Insert into a `strGe`-sorted-ascending list. -/
def insertSorted (x : String) : List String → List String
  | [] => [x]
  | y :: rest => if strGe y x then x :: y :: rest else y :: insertSorted x rest

/-- The `sort.Slice` call of getSortedTables, as an insertion sort into
ascending byte order. -/
def sortStrings (l : List String) : List String := l.foldr insertSorted []

/-- getSortedTables of report.go: the display names of fully-equal tables,
sorted ascending. -/
def Report.getSortedTables (r : Report) : List String :=
  sortStrings
    (r.TableResults.flatMap (fun p =>
      (p.2.filter (fun q => q.2.StructEqual && q.2.DataEqual)).map
        (fun q => TableName p.1 q.1)))

/-- Sum of RowsAdd over a table's recorded chunks. -/
def sumRowsAdd (tr : TableResult) : Int := (tr.ChunkMap.map (fun p => p.2.RowsAdd)).sum

/-- Sum of RowsDelete over a table's recorded chunks. -/
def sumRowsDelete (tr : TableResult) : Int := (tr.ChunkMap.map (fun p => p.2.RowsDelete)).sum

/-- One row of getDiffRows: display name, structure equality, and the
diff-rows cell (plus added, slash, minus deleted) summed over the table's
ChunkResults. -/
def diffRowFor (schema table : String) (tr : TableResult) : List String :=
  [TableName schema table,
   if tr.StructEqual then "true" else "false",
   "+" ++ toString (sumRowsAdd tr) ++ "/-" ++ toString (sumRowsDelete tr)]

/-- getDiffRows of report.go: one row per table that is not fully equal. -/
def Report.getDiffRows (r : Report) : List (List String) :=
  r.TableResults.flatMap (fun p =>
    (p.2.filter (fun q => !(q.2.StructEqual && q.2.DataEqual))).map
      (fun q => diffRowFor p.1 q.1 q.2))

/-- Cells of one rendered row. -/
def joinCells : List String → String
  | [] => ""
  | [c] => c
  | c :: rest => c ++ " | " ++ joinCells rest

/-- Rendered rows, one line each. -/
def renderRows : List (List String) → String
  | [] => ""
  | row :: rest => joinCells row ++ "\n" ++ renderRows rest

/-- Modelled from the spec: the tablewriter rendering (external library
`olekukonko/tablewriter`) of a header and rows, abstracted as one line per
row with cells separated by a bar. -/
def renderTable (header : List String) (rows : List (List String)) : String :=
  joinCells header ++ "\n" ++ renderRows rows

/-- The source-config blocks as CommitSummary writes them. -/
def configBlocks : List String → String
  | [] => ""
  | c :: rest => c ++ "\n" ++ configBlocks rest

/-- The fully-equal-tables list as CommitSummary writes it. -/
def equalList : List String → String
  | [] => ""
  | t :: rest => t ++ "\n" ++ equalList rest

/-- Everything CommitSummary writes before the (conditional) diff table:
headers, config blocks, and the list of fully-equal tables. -/
def summaryHead (r : Report) : String :=
  "Summary\n\n\n\n" ++ "Source Database\n\n\n\n" ++ configBlocks r.SourceConfig ++
  "Target Databases\n\n\n\n" ++ r.TargetConfig ++ "\n" ++
  "Comparison Result\n\n\n\n" ++
  "The table structure and data in following tables are equivalent\n\n" ++
  equalList r.getSortedTables

/-- Header of the inconsistent-tables table. -/
def diffHeader : List String := ["Table", "Structure equality", "Data diff rows"]

/-- The trailing duration and speed lines of the summary (Go renders a
`time.Duration` and a float; both renderings are abstracted over the
integral duration). -/
def summaryTail (r : Report) (now : Int) : String :=
  "Time Cost: " ++ toString (r.Duration + (now - r.StartTime)) ++ "\n" ++
  "Average Speed: " ++ toString r.TotalSize ++ "/" ++
    toString (r.Duration + (now - r.StartTime)) ++ "MB/s\n"

/-- Number of fully-equal tables, as CommitSummary recounts it. -/
def countPassTables (r : Report) : Int :=
  ((r.TableResults.flatMap (fun p => p.2)).filter
    (fun q => q.2.StructEqual && q.2.DataEqual)).length

/-- Number of not-fully-equal tables, as CommitSummary recounts it. -/
def countFailedTables (r : Report) : Int :=
  ((r.TableResults.flatMap (fun p => p.2)).filter
    (fun q => !(q.2.StructEqual && q.2.DataEqual))).length

/-- CommitSummary of report.go: recounts PassNum/FailedNum and returns the
updated report together with the text written to `summary.txt`; the
inconsistent-tables table is written only when `Result` is `Fail`. -/
def Report.CommitSummary (r : Report) (now : Int) : Report × String :=
  ({ r with PassNum := countPassTables r, FailedNum := countFailedTables r },
   summaryHead r ++
   (if r.Result = Fail then
      "\nThe following tables contains inconsistent data\n\n" ++
        renderTable diffHeader r.getDiffRows
    else "") ++
   summaryTail r now)

/-- Per-table lines of Print's `fail` branch. -/
def failLinesTable (schema table : String) (tr : TableResult) : String :=
  (if !tr.StructEqual then
    (if tr.DataSkip then
      "The structure of " ++ TableName schema table ++
        " is not equal, and data-check is skipped\n"
     else "The structure of " ++ TableName schema table ++ " is not equal\n")
   else "") ++
  (if !tr.DataEqual then
    "The data of " ++ TableName schema table ++ " is not equal\n"
   else "")

/-- All per-table lines of Print's `fail` branch. -/
def failLines (r : Report) : String :=
  (r.TableResults.flatMap (fun p => p.2.map (fun q => failLinesTable p.1 q.1 q.2))).foldl
    (fun acc s => acc ++ s) ""

/-- Per-table error lines of Print's `error` branch for one schema; Go calls
`result.MeetError.Error()` for every table, so a table whose MeetError is
nil makes the branch dereference nil (`none` here). -/
def errLinesTable (schema : String) : List (String × TableResult) → Option String
  | [] => some ""
  | (t, tr) :: rest =>
    match tr.MeetError with
    | none => none
    | some e =>
      (errLinesTable schema rest).map
        (fun s => e ++ " error occured in " ++ TableName schema t ++ "\n" ++ s)

/-- All per-table error lines of Print's `error` branch. -/
def errLines : List (String × List (String × TableResult)) → Option String
  | [] => some ""
  | (s, tm) :: rest =>
    match errLinesTable s tm with
    | none => none
    | some x => (errLines rest).map (fun y => x ++ y)

/-- The pointer to the comparison log that every Print branch ends with. -/
def logPointer (r : Report) : String :=
  "You can view the comparision details through '" ++ r.task.OutputDir ++ "/" ++
    LogFileName ++ "'\n"

/-- Print of report.go: the console summary, one shape per overall Result.
`none` models the nil dereference of the `error` branch on a table whose
MeetError is nil. -/
def Report.Print (r : Report) : Option String :=
  if r.Result = Pass then
    some ("A total of " ++ toString (r.FailedNum + r.PassNum) ++
      " table have been compared and all are equal.\n" ++ logPointer r)
  else if r.Result = Fail then
    some (failLines r ++ "\n" ++ "The rest of tables are all equal.\n" ++
      "The patch file has been generated in \n\t'" ++ r.task.FixDir ++ "/'\n" ++
      logPointer r)
  else
    (errLines r.TableResults).map
      (fun body => "Error in comparison process:\n" ++ body ++ logPointer r)

/-! ## GetSnapshot -/

/-- Chunk filtering of GetSnapshot for one retained table: every key is
parsed back into a ChunkID (a parse failure aborts the whole snapshot) and
kept exactly when it compares `<= 0` against the cutoff. -/
def filterChunks (c : ChunkID) : List (String × ChunkResult) →
    Option (List (String × ChunkResult))
  | [] => some []
  | (k, cr) :: rest =>
    match ChunkID.FromString k with
    | none => none
    | some sid =>
      if sid.Compare c ≤ 0 then (filterChunks c rest).map (fun l => (k, cr) :: l)
      else filterChunks c rest

/-- The copied TableResult of GetSnapshot: every field is copied except
DataSkip (left at its zero value, as in the Go struct literal) and the
filtered ChunkMap. -/
def snapTR (c : ChunkID) (tr : TableResult) : Option TableResult :=
  (filterChunks c tr.ChunkMap).map (fun cm =>
    { Schema := tr.Schema, Table := tr.Table, StructEqual := tr.StructEqual,
      DataSkip := false, DataEqual := tr.DataEqual, MeetError := tr.MeetError,
      ChunkMap := cm })

/-- Table filtering of GetSnapshot within one schema: a table is retained
exactly when its UniqueID is `>=` the target's. -/
def snapTables (c : ChunkID) (targetID schema : String) :
    List (String × TableResult) → Option (List (String × TableResult))
  | [] => some []
  | (t, tr) :: rest =>
    if strGe (UniqueID schema t) targetID then
      match snapTR c tr with
      | none => none
      | some tr' => (snapTables c targetID schema rest).map (fun l => (t, tr') :: l)
    else snapTables c targetID schema rest

/-- Schema loop of GetSnapshot: every schema keeps an entry (possibly with
no tables), mirroring the unconditional `make` in the Go loop. -/
def snapSchemas (c : ChunkID) (targetID : String) :
    List (String × List (String × TableResult)) →
    Option (List (String × List (String × TableResult)))
  | [] => some []
  | (s, tm) :: rest =>
    match snapTables c targetID s tm with
    | none => none
    | some tm' => (snapSchemas c targetID rest).map (fun l => (s, tm') :: l)

/-- GetSnapshot of report.go: the resumable-frontier copy.  Result,
StartTime, TotalSize and task are carried over, Duration is frozen to
`now - StartTime`, PassNum/FailedNum/configs take zero values. -/
def Report.GetSnapshot (r : Report) (now : Int) (chunkID : ChunkID)
    (schema table : String) : Option Report :=
  (snapSchemas chunkID (UniqueID schema table) r.TableResults).map (fun m =>
    { Result := r.Result, PassNum := 0, FailedNum := 0, TableResults := m,
      StartTime := r.StartTime, Duration := now - r.StartTime,
      TotalSize := r.TotalSize, SourceConfig := [], TargetConfig := "",
      task := r.task })

/-! ## Operation sequences (for the monotonicity and commutativity claims) -/

/-- One call of either check-result setter, with all its arguments. -/
inductive CheckOp where
  | struct (schema table : String) (equal skip : Bool)
  | data (schema table : String) (equal : Bool) (rowsAdd rowsDelete : Int) (id : ChunkID)
deriving DecidableEq

/-- Apply one CheckOp. -/
def applyCheckOp (r : Report) : CheckOp → Option Report
  | .struct s t e sk => r.SetTableStructCheckResult s t e sk
  | .data s t e ra rd id => r.SetTableDataCheckResult s t e ra rd id

/-- Apply a sequence of CheckOps, aborting at the first nil dereference. -/
def applyCheckOps : List CheckOp → Report → Option Report
  | [], r => some r
  | op :: ops, r => (applyCheckOp r op).bind (applyCheckOps ops)

/-- One chunk outcome fed to SetTableDataCheckResult. -/
structure DataOutcome where
  Schema : String
  Table : String
  Equal : Bool
  RowsAdd : Int
  RowsDelete : Int
  Id : ChunkID
deriving DecidableEq

/-- Apply one chunk outcome. -/
def applyOutcome (r : Report) (o : DataOutcome) : Option Report :=
  r.SetTableDataCheckResult o.Schema o.Table o.Equal o.RowsAdd o.RowsDelete o.Id

/-- Apply a sequence of chunk outcomes. -/
def applyOutcomes : List DataOutcome → Report → Option Report
  | [], r => some r
  | o :: os, r => (applyOutcome r o).bind (applyOutcomes os)

end SyncDiffReport

namespace SyncDiffReport

/-! ## Association-list lemmas -/

theorem alookup_insert {α : Type} (k j : String) (v : α) (l : List (String × α)) :
    alookup j (alistInsert k v l) = if k = j then some v else alookup j l := by
  induction l with
  | nil => simp [alistInsert, alookup]
  | cons p rest ih =>
    obtain ⟨k', v'⟩ := p
    by_cases hk : k' = k
    · subst hk
      by_cases hj : k' = j <;> simp [alistInsert, alookup, hj]
    · by_cases hj : k' = j
      · subst hj
        have : ¬k = k' := fun h => hk h.symm
        simp [alistInsert, alookup, hk, this]
      · simp [alistInsert, alookup, hk, hj, ih]

theorem alookup_modify {α : Type} (k j : String) (f : α → α) (l : List (String × α)) :
    alookup j (alistModify k f l) = if k = j then (alookup j l).map f else alookup j l := by
  induction l with
  | nil => simp [alistModify, alookup]
  | cons p rest ih =>
    obtain ⟨k', v'⟩ := p
    by_cases hk : k' = k
    · subst hk
      by_cases hj : k' = j <;> simp [alistModify, alookup, hj]
    · by_cases hj : k' = j
      · subst hj
        have : ¬k = k' := fun h => hk h.symm
        simp [alistModify, alookup, hk, this]
      · simp [alistModify, alookup, hk, hj, ih]

theorem alookup_mem {α : Type} (k : String) (v : α) (l : List (String × α))
    (h : alookup k l = some v) : (k, v) ∈ l := by
  induction l with
  | nil => simp [alookup] at h
  | cons p rest ih =>
    obtain ⟨k', v'⟩ := p
    by_cases hk : k' = k
    · subst hk
      simp [alookup] at h
      simp [h]
    · simp [alookup, hk] at h
      exact List.mem_cons_of_mem _ (ih h)

/-- Effect of `updateTR` on every lookup, given the schema entry exists. -/
theorem lookupTR_updateTR (r : Report) (s0 t0 : String) (tr' : TableResult)
    (s t : String) (tm0 : List (String × TableResult))
    (h : alookup s0 r.TableResults = some tm0) :
    lookupTR (updateTR r s0 t0 tr') s t =
      if s0 = s ∧ t0 = t then some tr' else lookupTR r s t := by
  unfold lookupTR updateTR
  simp only [alookup_modify]
  by_cases hs : s0 = s
  · subst hs
    simp [h, alookup_insert]
  · simp [hs]

/-- `updateTR` keeps the overall Result. -/
theorem updateTR_Result (r : Report) (s0 t0 : String) (tr' : TableResult) :
    (updateTR r s0 t0 tr').Result = r.Result := rfl

/-- `updateTR` keeps the total size. -/
theorem updateTR_TotalSize (r : Report) (s0 t0 : String) (tr' : TableResult) :
    (updateTR r s0 t0 tr').TotalSize = r.TotalSize := rfl

/-! ## Claim C10 -/

/-- SetTableMeetError returns `none` exactly on a present schema with an
absent table entry (helper shared by several proofs). -/
theorem setTableMeetError_missing_table (r : Report) (s t e : String) :
    r.SetTableMeetError s t e = none ↔
      ∃ tm, alookup s r.TableResults = some tm ∧ alookup t tm = none := by
  unfold Report.SetTableMeetError
  cases hs : alookup s r.TableResults with
  | none => simp
  | some tm =>
    cases ht : alookup t tm with
    | none => simp [ht]
    | some tr => simp [ht]

/-- Claim C10: SetTableMeetError dereferences nil exactly when the schema
entry exists but the table entry does not; it handles the schema-absent
case but not the table-absent case. -/
theorem setTableMeetError_none_iff (r : Report) (s t e : String) :
    r.SetTableMeetError s t e = none ↔
      ∃ tm, alookup s r.TableResults = some tm ∧ alookup t tm = none :=
  setTableMeetError_missing_table r s t e

/-! ## Claim C3 -/

def cfg0 : TaskConfig := { OutputDir := "out", FixDir := "fix" }
def dbS : String := "db"
def t1S : String := "t1"
def t2S : String := "t2"
def eBoom : String := "boom"

/-- Claim C3 (counterexample): on a fresh report (Result `pass`) whose
TableResults has no entry for the schema, SetTableMeetError records the
error but leaves the overall Result at `pass`, not `error`. -/
theorem setTableMeetError_missing_schema_keeps_result :
    ((NewReport cfg0).SetTableMeetError dbS t1S eBoom).map (fun r => r.Result) = some Pass ∧
    Pass ≠ Error ∧
    (((NewReport cfg0).SetTableMeetError dbS t1S eBoom).bind
      (fun r => lookupTR r dbS t1S)).map (fun tr => tr.MeetError) = some (some eBoom) := by
  decide

/-- Claim C3 (amended): SetTableMeetError always records the error in the
table's MeetError field; the overall Result is forced to `error` when the
schema entry (and the table entry) already exist, but when the schema has
no entry the early-return branch creates a fresh TableResult and leaves the
overall Result unchanged. -/
theorem setTableMeetError_spec (r : Report) (s t e : String) :
    (alookup s r.TableResults = none →
      ∃ r', r.SetTableMeetError s t e = some r' ∧ r'.Result = r.Result ∧
        (lookupTR r' s t).map (fun tr => tr.MeetError) = some (some e)) ∧
    (∀ tm tr, alookup s r.TableResults = some tm → alookup t tm = some tr →
      ∃ r', r.SetTableMeetError s t e = some r' ∧ r'.Result = Error ∧
        (lookupTR r' s t).map (fun tr => tr.MeetError) = some (some e)) := by
  constructor
  · intro hs
    refine ⟨{ r with
              TableResults :=
                alistInsert s
                  [(t,
                    { Schema := "", Table := "", StructEqual := false, DataSkip := false,
                      DataEqual := false, MeetError := some e, ChunkMap := [] })]
                  r.TableResults }, ?_, rfl, ?_⟩
    · simp [Report.SetTableMeetError, hs]
    · simp [lookupTR, alookup_insert, alookup]
  · intro tm tr hs ht
    refine ⟨{ updateTR r s t { tr with MeetError := some e } with Result := Error },
      ?_, rfl, ?_⟩
    · simp [Report.SetTableMeetError, hs, ht]
    · have hl : lookupTR
          { updateTR r s t { tr with MeetError := some e } with Result := Error } s t =
          lookupTR (updateTR r s t { tr with MeetError := some e }) s t := by
        simp [lookupTR, updateTR]
      rw [hl, lookupTR_updateTR r s t _ s t tm hs]
      simp

/-! ## Claim C2 -/

/-- SetTableStructCheckResult cannot move Result away from `error`. -/
theorem setTableStructCheckResult_keeps_error (r r' : Report) (s t : String) (e sk : Bool)
    (h : r.SetTableStructCheckResult s t e sk = some r') (he : r.Result = Error) :
    r'.Result = Error := by
  unfold Report.SetTableStructCheckResult at h
  rw [Option.map_eq_some'] at h
  obtain ⟨tr, _, h⟩ := h
  have hres : ∀ tr' : TableResult, (updateTR r s t tr').Result = Error := fun tr' => by
    rw [updateTR_Result]; exact he
  rw [← h]
  dsimp only
  split
  · rename_i hc
    exact absurd (hres _) hc.2
  · exact hres _

/-- SetTableDataCheckResult cannot move Result away from `error`. -/
theorem setTableDataCheckResult_keeps_error (r r' : Report) (s t : String) (e : Bool)
    (ra rd : Int) (id : ChunkID)
    (h : r.SetTableDataCheckResult s t e ra rd id = some r') (he : r.Result = Error) :
    r'.Result = Error := by
  unfold Report.SetTableDataCheckResult at h
  by_cases heq : e = true
  · rw [if_pos heq, Option.some_inj] at h
    rw [← h]; exact he
  · rw [if_neg heq, Option.map_eq_some'] at h
    obtain ⟨tr, _, h⟩ := h
    have hres : ∀ tr' : TableResult, (updateTR r s t tr').Result = Error := fun tr' => by
      rw [updateTR_Result]; exact he
    rw [← h]
    dsimp only
    split
    · rename_i hc
      exact absurd (hres _) hc
    · exact hres _

/-- One CheckOp cannot move Result away from `error`. -/
theorem applyCheckOp_keeps_error (r r' : Report) (op : CheckOp)
    (h : applyCheckOp r op = some r') (he : r.Result = Error) : r'.Result = Error := by
  cases op with
  | struct s t e sk =>
    exact setTableStructCheckResult_keeps_error r r' s t e sk h he
  | data s t e ra rd id =>
    exact setTableDataCheckResult_keeps_error r r' s t e ra rd id h he

/-- Claim C2: once the overall Result is `error`, no finite sequence of
SetTableStructCheckResult and SetTableDataCheckResult calls (with any
arguments) that completes can move it to `pass` or `fail`; it stays
`error`. -/
theorem result_error_is_terminal (ops : List CheckOp) (r r' : Report)
    (he : r.Result = Error) (h : applyCheckOps ops r = some r') : r'.Result = Error := by
  induction ops generalizing r with
  | nil =>
    simp only [applyCheckOps, Option.some_inj] at h
    rw [← h]; exact he
  | cons op rest ih =>
    simp only [applyCheckOps] at h
    cases hstep : applyCheckOp r op with
    | none => simp [hstep] at h
    | some r1 =>
      rw [hstep] at h
      simp only [Option.some_bind] at h
      exact ih r1 (applyCheckOp_keeps_error r r1 op hstep he) h

def rC2 : Report :=
  (((NewReport cfg0).Init 0 [⟨dbS, t1S⟩, ⟨dbS, t2S⟩] [] "").SetTableMeetError dbS t1S
    eBoom).getD (NewReport cfg0)

def opsC2 : List CheckOp :=
  [CheckOp.struct dbS t2S false false,
   CheckOp.data dbS t2S false 3 4 ⟨0, 0, 1⟩,
   CheckOp.data dbS t1S true 0 0 ⟨0, 1, 1⟩]

def rC2res : Report := (applyCheckOps opsC2 rC2).getD (NewReport cfg0)

/-- Witness for C2: a concrete errored report stays `error` across a
concrete sequence of further struct- and data-check calls. -/
theorem result_error_is_terminal_witness :
    rC2.Result = Error ∧ applyCheckOps opsC2 rC2 = some rC2res ∧ rC2res.Result = Error :=
  ⟨by decide, by decide, result_error_is_terminal opsC2 rC2 rC2res (by decide) (by decide)⟩

/-! ## Claim C4 -/

def printErrReport : Report :=
  (((NewReport cfg0).Init 0 [⟨dbS, t1S⟩, ⟨dbS, t2S⟩] [] "").SetTableMeetError dbS t1S
    eBoom).getD (NewReport cfg0)

/-- Claim C4 (code behavior at the failing input): a report whose Result is
`error` with one table that recorded a MeetError and one that did not makes
Print dereference the nil MeetError of the second table (the embedded
`error` branch yields no output), instead of printing an error line only
for the erring table. -/
theorem print_error_branch_derefs_nil_meetError :
    printErrReport.Result = Error ∧
    (lookupTR printErrReport dbS t1S).map (fun tr => tr.MeetError) = some (some eBoom) ∧
    (lookupTR printErrReport dbS t2S).map (fun tr => tr.MeetError) = some none ∧
    printErrReport.Print = none := by
  decide

/-! ## Claim C7 -/

def r7base : Report := (NewReport cfg0).Init 0 [⟨dbS, t1S⟩] [] ""

def out7 : List DataOutcome :=
  [⟨dbS, t1S, true, 0, 0, ⟨0, 0, 3⟩⟩,
   ⟨dbS, t1S, false, 2, 1, ⟨0, 1, 3⟩⟩,
   ⟨dbS, t1S, true, 0, 0, ⟨0, 2, 3⟩⟩]

def r7 : Report := (applyOutcomes out7 r7base).getD (NewReport cfg0)

/-- Claim C7: three chunks of `t1`, chunks 0 and 2 equal, chunk 1 with two
added and one deleted row: afterwards DataEqual is false, the ChunkMap has
exactly one entry, at chunk 1's id string, with RowsAdd 2 and RowsDelete 1,
and the overall Result is `fail`. -/
theorem three_chunk_scenario :
    applyOutcomes out7 r7base = some r7 ∧
    (lookupTR r7 dbS t1S).map (fun tr => tr.DataEqual) = some false ∧
    (lookupTR r7 dbS t1S).map (fun tr => alookup (ChunkID.ToString ⟨0, 1, 3⟩) tr.ChunkMap) =
      some (some { RowsAdd := 2, RowsDelete := 1 }) ∧
    (lookupTR r7 dbS t1S).map (fun tr => alookup (ChunkID.ToString ⟨0, 0, 3⟩) tr.ChunkMap) =
      some none ∧
    (lookupTR r7 dbS t1S).map (fun tr => alookup (ChunkID.ToString ⟨0, 2, 3⟩) tr.ChunkMap) =
      some none ∧
    (lookupTR r7 dbS t1S).map (fun tr => tr.ChunkMap.length) = some 1 ∧
    r7.Result = Fail := by
  decide

end SyncDiffReport

namespace SyncDiffReport

/-! ## Claim C9 -/

/-- Keys untouched by loadTables stay untouched. -/
theorem loadTables_notmem (l base : List (String × TableResult)) (t : String)
    (h : t ∉ l.map Prod.fst) : alookup t (loadTables l base) = alookup t base := by
  induction l generalizing base with
  | nil => rfl
  | cons p rest ih =>
    obtain ⟨t0, tr0⟩ := p
    simp only [List.map_cons, List.mem_cons, not_or] at h
    rw [loadTables, ih (alistInsert t0 tr0 base) h.2, alookup_insert]
    simp only [ite_eq_right_iff]
    intro he
    exact absurd he.symm h.1

/-- A binding of a duplicate-free list survives loadTables. -/
theorem loadTables_mem (l base : List (String × TableResult)) (t : String)
    (tr : TableResult) (hn : (l.map Prod.fst).Nodup) (h : alookup t l = some tr) :
    alookup t (loadTables l base) = some tr := by
  induction l generalizing base with
  | nil => simp [alookup] at h
  | cons p rest ih =>
    obtain ⟨t0, tr0⟩ := p
    simp only [List.map_cons, List.nodup_cons] at hn
    by_cases ht : t0 = t
    · subst ht
      simp only [alookup, eq_self_iff_true, if_true, Option.some_inj] at h
      subst h
      rw [loadTables, loadTables_notmem rest (alistInsert t0 tr0 base) t0 hn.1,
        alookup_insert, if_pos rfl]
    · simp only [alookup, if_neg ht] at h
      rw [loadTables]
      exact ih (alistInsert t0 tr0 base) hn.2 h

/-- Schema keys untouched by loadSchemas stay untouched. -/
theorem loadSchemas_notmem (l acc : List (String × List (String × TableResult)))
    (s : String) (h : s ∉ l.map Prod.fst) :
    alookup s (loadSchemas l acc) = alookup s acc := by
  induction l generalizing acc with
  | nil => rfl
  | cons p rest ih =>
    obtain ⟨s0, tm0⟩ := p
    simp only [List.map_cons, List.mem_cons, not_or] at h
    rw [loadSchemas, ih _ h.2, alookup_insert]
    simp only [ite_eq_right_iff]
    intro he
    exact absurd he.symm h.1

/-- Every table binding of a duplicate-free snapshot survives loadSchemas. -/
theorem loadSchemas_mem (l acc : List (String × List (String × TableResult)))
    (s t : String) (tm : List (String × TableResult)) (tr : TableResult)
    (hn : (l.map Prod.fst).Nodup) (hn2 : ∀ p ∈ l, (p.2.map Prod.fst).Nodup)
    (hs : alookup s l = some tm) (ht : alookup t tm = some tr) :
    ∃ tm', alookup s (loadSchemas l acc) = some tm' ∧ alookup t tm' = some tr := by
  induction l generalizing acc with
  | nil => simp [alookup] at hs
  | cons p rest ih =>
    obtain ⟨s0, tm0⟩ := p
    simp only [List.map_cons, List.nodup_cons] at hn
    by_cases hss : s0 = s
    · subst hss
      simp only [alookup, eq_self_iff_true, if_true, Option.some_inj] at hs
      subst hs
      rw [loadSchemas]
      refine ⟨loadTables tm0 ((alookup s0 acc).getD []), ?_, ?_⟩
      · rw [loadSchemas_notmem rest _ s0 hn.1, alookup_insert, if_pos rfl]
      · exact loadTables_mem tm0 _ t tr (hn2 (s0, tm0) (List.mem_cons_self _ _)) ht
    · simp only [alookup, if_neg hss] at hs
      rw [loadSchemas]
      exact ih _ hn.2 (fun p hp => hn2 p (List.mem_cons_of_mem _ hp)) hs

/-- Claim C9: LoadReport copies Duration and TotalSize from the loaded
snapshot, resets StartTime to now, and inserts every (schema, table)
TableResult of the snapshot into the live report; every other field of the
live report — in particular Result, PassNum and FailedNum — keeps its
pre-load value, so a freshly created report keeps Result `pass` no matter
what the snapshot's Result was. -/
theorem loadReport_spec (r info : Report) (now : Int)
    (hn : (info.TableResults.map Prod.fst).Nodup ∧
      ∀ p ∈ info.TableResults, (p.2.map Prod.fst).Nodup) :
    (r.LoadReport now info).Result = r.Result ∧
    (r.LoadReport now info).PassNum = r.PassNum ∧
    (r.LoadReport now info).FailedNum = r.FailedNum ∧
    (r.LoadReport now info).SourceConfig = r.SourceConfig ∧
    (r.LoadReport now info).TargetConfig = r.TargetConfig ∧
    (r.LoadReport now info).task = r.task ∧
    (r.LoadReport now info).StartTime = now ∧
    (r.LoadReport now info).Duration = info.Duration ∧
    (r.LoadReport now info).TotalSize = info.TotalSize ∧
    ∀ s t tr, lookupTR info s t = some tr →
      lookupTR (r.LoadReport now info) s t = some tr := by
  refine ⟨rfl, rfl, rfl, rfl, rfl, rfl, rfl, rfl, rfl, ?_⟩
  intro s t tr h
  unfold lookupTR at h ⊢
  cases hs : alookup s info.TableResults with
  | none => rw [hs] at h; simp at h
  | some tm =>
    rw [hs] at h
    simp only [Option.some_bind] at h
    obtain ⟨tm', h1, h2⟩ :=
      loadSchemas_mem info.TableResults r.TableResults s t tm tr hn.1 hn.2 hs h
    show (alookup s (loadSchemas info.TableResults r.TableResults)).bind _ = some tr
    rw [h1, Option.some_bind, h2]

def rC9live : Report := NewReport cfg0

def rC9snap : Report :=
  { (NewReport cfg0).Init 0 [⟨dbS, t1S⟩] [] "" with
      Result := Fail, Duration := 7, TotalSize := 9 }

/-- Witness for C9: re-hydrating a fresh report from a snapshot whose
Result is `fail` copies Duration but keeps the live report's `pass`. -/
theorem loadReport_spec_witness :
    ((rC9snap.TableResults.map Prod.fst).Nodup ∧
      ∀ p ∈ rC9snap.TableResults, (p.2.map Prod.fst).Nodup) ∧
    rC9snap.Result = Fail ∧ rC9live.Result = Pass ∧
    (rC9live.LoadReport 5 rC9snap).Result = rC9live.Result ∧
    (rC9live.LoadReport 5 rC9snap).Duration = rC9snap.Duration :=
  ⟨by decide, by decide, by decide,
    (loadReport_spec rC9live rC9snap 5 (by decide)).1,
    (loadReport_spec rC9live rC9snap 5 (by decide)).2.2.2.2.2.2.2.1⟩

end SyncDiffReport


namespace SyncDiffReport

/-! ## Claim C6 -/

/-- Equality/skip flags of a table, as one lookup. -/
def flagsAt (r : Report) (s t : String) : Option (Bool × Bool × Bool) :=
  (lookupTR r s t).map (fun tr => (tr.StructEqual, tr.DataEqual, tr.DataSkip))

/-- MeetError of a table, as one lookup. -/
def meetAt (r : Report) (s t : String) : Option (Option String) :=
  (lookupTR r s t).map (fun tr => tr.MeetError)

theorem alookup_isSome_of_mem {α : Type} (k : String) (v : α) (l : List (String × α))
    (h : (k, v) ∈ l) : (alookup k l).isSome = true := by
  induction l with
  | nil => simp at h
  | cons p rest ih =>
    obtain ⟨k', v'⟩ := p
    rcases List.mem_cons.mp h with h1 | h2
    · cases h1
      simp [alookup]
    · by_cases hk : k' = k
      · simp [alookup, hk]
      · simpa [alookup, hk] using ih h2

theorem tablePairs_schema_isSome (r : Report) (s t : String)
    (h : (s, t) ∈ tablePairs r) : (alookup s r.TableResults).isSome = true := by
  unfold tablePairs at h
  rw [List.mem_flatMap] at h
  obtain ⟨p, hp, hmem⟩ := h
  rw [List.mem_map] at hmem
  obtain ⟨q, -, hq⟩ := hmem
  have hs : p.1 = s := congrArg Prod.fst hq
  subst hs
  exact alookup_isSome_of_mem p.1 p.2 r.TableResults (by simpa using hp)

/-- SetTableMeetError at a present (schema, table) entry, explicitly. -/
theorem setTableMeetError_present (r : Report) (s0 t0 e : String)
    (tm : List (String × TableResult)) (tr : TableResult)
    (hs : alookup s0 r.TableResults = some tm) (ht : alookup t0 tm = some tr) :
    r.SetTableMeetError s0 t0 e =
      some { updateTR r s0 t0 { tr with MeetError := some e } with Result := Error } := by
  simp [Report.SetTableMeetError, hs, ht]

theorem alookup_modify_isSome {α : Type} (k j : String) (f : α → α)
    (l : List (String × α)) :
    (alookup j (alistModify k f l)).isSome = (alookup j l).isSome := by
  rw [alookup_modify]
  by_cases hk : k = j
  · simp [hk]
  · simp [hk]

/-- What one run of the CalculateTotalSize loop body does, for any list of
table keys whose schemas all exist in the report. -/
theorem calcSizeGo_spec (f : String → String → Int × Option String)
    (ps : List (String × String)) (r r' : Report)
    (hkeys : ∀ p ∈ ps, (alookup p.1 r.TableResults).isSome = true)
    (h : calcSizeGo f ps r = some r') :
    (∀ s t, flagsAt r' s t = flagsAt r s t) ∧
    (r'.Result = if ps.any (fun p => (f p.1 p.2).2.isSome) then Error else r.Result) ∧
    (r'.TotalSize = r.TotalSize + (ps.map (fun p => (f p.1 p.2).1)).sum) ∧
    (∀ s t, ¬((s, t) ∈ ps ∧ (f s t).2.isSome = true) → meetAt r' s t = meetAt r s t) ∧
    (∀ s t e, (s, t) ∈ ps → (f s t).2 = some e → meetAt r' s t = some (some e)) := by
  induction ps generalizing r with
  | nil =>
    simp only [calcSizeGo, Option.some_inj] at h
    subst h
    refine ⟨fun s t => rfl, by simp, by simp, fun s t _ => rfl, fun s t e hm => by simp at hm⟩
  | cons p ps ih =>
    obtain ⟨s0, t0⟩ := p
    rw [calcSizeGo] at h
    dsimp only at h
    obtain ⟨tm, htm⟩ := Option.isSome_iff_exists.mp (hkeys (s0, t0) (List.mem_cons_self _ _))
    dsimp only at htm
    cases hf : (f s0 t0).2 with
    | none =>
      rw [hf] at h
      dsimp only at h
      set r1 := if (f s0 t0).1 = 0 then r else { r with TotalSize := r.TotalSize + (f s0 t0).1 } with hr1
      have hTR : r1.TableResults = r.TableResults := by
        rw [hr1]; split <;> rfl
      have hRes : r1.Result = r.Result := by
        rw [hr1]; split <;> rfl
      have hTot : r1.TotalSize = r.TotalSize + (f s0 t0).1 := by
        rw [hr1]; split
        · rename_i h0; rw [h0]; simp
        · rfl
      have hlook : ∀ s t, lookupTR r1 s t = lookupTR r s t := fun s t => by
        unfold lookupTR; rw [hTR]
      have hflags0 : ∀ s t, flagsAt r1 s t = flagsAt r s t := fun s t => by
        unfold flagsAt; rw [hlook]
      have hmeet0 : ∀ s t, meetAt r1 s t = meetAt r s t := fun s t => by
        unfold meetAt; rw [hlook]
      have hkeys' : ∀ q ∈ ps, (alookup q.1 r1.TableResults).isSome = true := fun q hq => by
        rw [hTR]; exact hkeys q (List.mem_cons_of_mem _ hq)
      obtain ⟨ih1, ih2, ih3, ih4, ih5⟩ := ih r1 hkeys' h
      refine ⟨fun s t => (ih1 s t).trans (hflags0 s t), ?_, ?_, ?_, ?_⟩
      · rw [ih2, hRes, List.any_cons]
        dsimp only
        simp only [hf, Option.isSome_none, Bool.false_or]
      · rw [ih3, hTot]
        simp only [List.map_cons, List.sum_cons]
        ring
      · intro s t hcond
        exact (ih4 s t (fun hc => hcond ⟨List.mem_cons_of_mem _ hc.1, hc.2⟩)).trans
          (hmeet0 s t)
      · intro s t e hm hfe
        rcases List.mem_cons.mp hm with h1 | h2
        · obtain ⟨hs1, ht1⟩ := Prod.ext_iff.mp h1
          dsimp only at hs1 ht1
          rw [hs1, ht1, hf] at hfe
          exact absurd hfe (by simp)
        · exact ih5 s t e h2 hfe
    | some e0 =>
      rw [hf] at h
      dsimp only at h
      cases hTl : alookup t0 tm with
      | none =>
        rw [setTableMeetError_missing_table r s0 t0 e0 |>.mpr ⟨tm, htm, hTl⟩] at h
        simp at h
      | some tr =>
        rw [setTableMeetError_present r s0 t0 e0 tm tr htm hTl] at h
        simp only [Option.map_some', Option.some_bind] at h
        set rE := { updateTR r s0 t0 { tr with MeetError := some e0 } with Result := Error } with hrE
        set r1 := if (f s0 t0).1 = 0 then rE else { rE with TotalSize := rE.TotalSize + (f s0 t0).1 } with hr1
        have hTR : r1.TableResults = rE.TableResults := by
          rw [hr1]; split <;> rfl
        have hRes : r1.Result = Error := by
          rw [hr1]; split <;> rfl
        have hTot : r1.TotalSize = r.TotalSize + (f s0 t0).1 := by
          have hE : rE.TotalSize = r.TotalSize := rfl
          rw [hr1]; split
          · rename_i h0; rw [h0, hE]; simp
          · rw [hE]
        have hlookE : ∀ s t, lookupTR rE s t =
            if s0 = s ∧ t0 = t then some { tr with MeetError := some e0 } else lookupTR r s t :=
          fun s t => lookupTR_updateTR r s0 t0 _ s t tm htm
        have hlook : ∀ s t, lookupTR r1 s t = lookupTR rE s t := fun s t => by
          unfold lookupTR; rw [hTR]
        have hkeys' : ∀ q ∈ ps, (alookup q.1 r1.TableResults).isSome = true := fun q hq => by
          rw [hTR, hrE]
          show (alookup q.1 (alistModify s0 _ r.TableResults)).isSome = true
          rw [alookup_modify_isSome]
          exact hkeys q (List.mem_cons_of_mem _ hq)
        obtain ⟨ih1, ih2, ih3, ih4, ih5⟩ := ih r1 hkeys' h
        have hflags : ∀ s t, flagsAt r1 s t = flagsAt r s t := fun s t => by
          unfold flagsAt
          rw [hlook, hlookE]
          by_cases hc : s0 = s ∧ t0 = t
          · rw [if_pos hc]
            have hrst : lookupTR r s t = some tr := by
              rw [← hc.1, ← hc.2]
              unfold lookupTR
              rw [htm, Option.some_bind, hTl]
            rw [hrst]
            rfl
          · rw [if_neg hc]
        have hmeet1 : ∀ s t, ¬(s0 = s ∧ t0 = t) → meetAt r1 s t = meetAt r s t := fun s t hc => by
          unfold meetAt
          rw [hlook, hlookE, if_neg hc]
        have hmeetHit : meetAt r1 s0 t0 = some (some e0) := by
          unfold meetAt
          rw [hlook, hlookE, if_pos ⟨rfl, rfl⟩]
          rfl
        refine ⟨fun s t => (ih1 s t).trans (hflags s t), ?_, ?_, ?_, ?_⟩
        · rw [ih2, hRes, List.any_cons]
          dsimp only
          simp only [hf, Option.isSome_some, Bool.true_or, eq_self_iff_true, if_true, ite_self]
        · rw [ih3, hTot]
          simp only [List.map_cons, List.sum_cons]
          ring
        · intro s t hcond
          have hne : ¬(s0 = s ∧ t0 = t) := by
            rintro ⟨rfl, rfl⟩
            exact hcond ⟨List.mem_cons_self _ _, by rw [hf]; rfl⟩
          exact (ih4 s t (fun hc => hcond ⟨List.mem_cons_of_mem _ hc.1, hc.2⟩)).trans
            (hmeet1 s t hne)
        · intro s t e hm hfe
          by_cases hc : (s, t) ∈ ps ∧ ((f s t).2.isSome = true)
          · exact ih5 s t e hc.1 hfe
          · rcases List.mem_cons.mp hm with h1 | h2
            · obtain ⟨hs1, ht1⟩ := Prod.ext_iff.mp h1
              dsimp only at hs1 ht1
              subst hs1; subst ht1
              rw [hfe] at hf
              rw [ih4 _ _ hc, hmeetHit, Option.some_inj.mp hf]
            · exact absurd ⟨h2, by rw [hfe]; rfl⟩ hc


def eIO : String := "connection refused"

/-- A size oracle that fails for every table. -/
def sizeFail : String → String → Int × Option String := fun _ _ => (0, some eIO)

def rC6 : Report := (NewReport cfg0).Init 0 [⟨dbS, t1S⟩] [] ""

/-- Claim C6 (counterexample): on an initialized one-table report, a failed
size fetch makes CalculateTotalSize set the table's MeetError and escalate
the overall Result from `pass` to `error` — the operation is not read-only
with respect to Result and MeetError. -/
theorem calculateTotalSize_error_not_readonly :
    rC6.Result = Pass ∧
    meetAt rC6 dbS t1S = some none ∧
    (rC6.CalculateTotalSize sizeFail).map (fun r => r.Result) = some Error ∧
    ((rC6.CalculateTotalSize sizeFail).bind (fun r => meetAt r dbS t1S)) =
      some (some eIO) := by
  decide

/-- Claim C6 (amended): a failed size fetch is routed to SetTableMeetError,
so it sets that table's MeetError and escalates the overall Result to
`error` (zero sizes only warn); the equality and skip flags of every table
are untouched, and TotalSize grows by the sum of the fetched sizes. -/
theorem calculateTotalSize_spec (f : String → String → Int × Option String)
    (r r' : Report) (h : r.CalculateTotalSize f = some r') :
    (∀ s t, flagsAt r' s t = flagsAt r s t) ∧
    (r'.Result =
      if (tablePairs r).any (fun p => (f p.1 p.2).2.isSome) then Error else r.Result) ∧
    (r'.TotalSize = r.TotalSize + ((tablePairs r).map (fun p => (f p.1 p.2).1)).sum) ∧
    (∀ s t, ¬((s, t) ∈ tablePairs r ∧ (f s t).2.isSome = true) →
      meetAt r' s t = meetAt r s t) ∧
    (∀ s t e, (s, t) ∈ tablePairs r → (f s t).2 = some e →
      meetAt r' s t = some (some e)) :=
  calcSizeGo_spec f (tablePairs r) r r'
    (fun p hp => tablePairs_schema_isSome r p.1 p.2 (Prod.mk.eta ▸ hp)) h

def rC6res : Report := (rC6.CalculateTotalSize sizeFail).getD (NewReport cfg0)

/-- Witness for C6 (amended): the failing oracle on the one-table report
yields Result `error` and untouched flags. -/
theorem calculateTotalSize_spec_witness :
    rC6.CalculateTotalSize sizeFail = some rC6res ∧
    rC6res.Result =
      (if (tablePairs rC6).any (fun p => (sizeFail p.1 p.2).2.isSome) then Error
       else rC6.Result) ∧
    flagsAt rC6res dbS t1S = flagsAt rC6 dbS t1S :=
  ⟨by decide,
    (calculateTotalSize_spec sizeFail rC6 rC6res (by decide)).2.1,
    (calculateTotalSize_spec sizeFail rC6 rC6res (by decide)).1 dbS t1S⟩

end SyncDiffReport

namespace SyncDiffReport

/-! ## Claim C1 -/

/-- Every chunk retained by filterChunks parses to a ChunkID at most the
cutoff and comes from the input map. -/
theorem filterChunks_sub (c : ChunkID) (l l' : List (String × ChunkResult))
    (h : filterChunks c l = some l') (k : String) (cr : ChunkResult)
    (hk : alookup k l' = some cr) :
    ∃ sid, ChunkID.FromString k = some sid ∧ sid.Compare c ≤ 0 ∧ alookup k l = some cr := by
  induction l generalizing l' with
  | nil =>
    simp only [filterChunks, Option.some_inj] at h
    subst h
    simp [alookup] at hk
  | cons p rest ih =>
    obtain ⟨k0, cr0⟩ := p
    rw [filterChunks] at h
    cases hp0 : ChunkID.FromString k0 with
    | none => rw [hp0] at h; simp at h
    | some sid0 =>
      rw [hp0] at h
      dsimp only at h
      by_cases hcmp : sid0.Compare c ≤ 0
      · rw [if_pos hcmp, Option.map_eq_some'] at h
        obtain ⟨l'', hrest, hl'⟩ := h
        subst hl'
        by_cases hkk : k0 = k
        · subst hkk
          simp only [alookup, eq_self_iff_true, if_true, Option.some_inj] at hk
          subst hk
          exact ⟨sid0, hp0, hcmp, by simp [alookup]⟩
        · simp only [alookup, hkk, if_neg] at hk ⊢
          simpa [alookup, hkk] using ih l'' hrest hk
      · rw [if_neg hcmp] at h
        obtain ⟨sid, hps, hcs, hrest⟩ := ih l' h hk
        by_cases hkk : k0 = k
        · subst hkk
          rw [hps] at hp0
          cases hp0
          exact absurd hcs hcmp
        · exact ⟨sid, hps, hcs, by simpa [alookup, hkk] using hrest⟩

/-- Every chunk of the input map whose id parses to at most the cutoff is
retained by filterChunks, with the same counts. -/
theorem filterChunks_keep (c : ChunkID) (l l' : List (String × ChunkResult))
    (h : filterChunks c l = some l') (k : String) (cr : ChunkResult) (sid : ChunkID)
    (hk : alookup k l = some cr) (hp : ChunkID.FromString k = some sid)
    (hc : sid.Compare c ≤ 0) : alookup k l' = some cr := by
  induction l generalizing l' with
  | nil => simp [alookup] at hk
  | cons p rest ih =>
    obtain ⟨k0, cr0⟩ := p
    rw [filterChunks] at h
    cases hp0 : ChunkID.FromString k0 with
    | none => rw [hp0] at h; simp at h
    | some sid0 =>
      rw [hp0] at h
      dsimp only at h
      by_cases hkk : k0 = k
      · subst hkk
        rw [hp0] at hp
        cases hp
        rw [if_pos hc, Option.map_eq_some'] at h
        obtain ⟨l'', hrest, hl'⟩ := h
        subst hl'
        simp only [alookup, eq_self_iff_true, if_true, Option.some_inj] at hk ⊢
        exact hk
      · simp only [alookup, hkk, if_neg] at hk
        by_cases hcmp : sid0.Compare c ≤ 0
        · rw [if_pos hcmp, Option.map_eq_some'] at h
          obtain ⟨l'', hrest, hl'⟩ := h
          subst hl'
          simpa [alookup, hkk] using ih l'' hrest hk
        · rw [if_neg hcmp] at h
          exact ih l' h hk

/-- Unpacking a successful snapTR. -/
theorem snapTR_eq (c : ChunkID) (tr tr' : TableResult) (h : snapTR c tr = some tr') :
    ∃ cm, filterChunks c tr.ChunkMap = some cm ∧
      tr' = { Schema := tr.Schema, Table := tr.Table, StructEqual := tr.StructEqual,
              DataSkip := false, DataEqual := tr.DataEqual, MeetError := tr.MeetError,
              ChunkMap := cm } := by
  unfold snapTR at h
  rw [Option.map_eq_some'] at h
  obtain ⟨cm, hcm, h⟩ := h
  exact ⟨cm, hcm, h.symm⟩

/-- Every table retained by snapTables has key `>=` the target and comes
from the input map via snapTR. -/
theorem snapTables_sub (c : ChunkID) (tid schema : String)
    (l l' : List (String × TableResult))
    (h : snapTables c tid schema l = some l') (t : String) (tr' : TableResult)
    (hk : alookup t l' = some tr') :
    strGe (UniqueID schema t) tid = true ∧
      ∃ tr, alookup t l = some tr ∧ snapTR c tr = some tr' := by
  induction l generalizing l' with
  | nil =>
    simp only [snapTables, Option.some_inj] at h
    subst h
    simp [alookup] at hk
  | cons p rest ih =>
    obtain ⟨t0, tr0⟩ := p
    rw [snapTables] at h
    by_cases hge : strGe (UniqueID schema t0) tid = true
    · rw [if_pos hge] at h
      cases hs : snapTR c tr0 with
      | none => rw [hs] at h; simp at h
      | some tr0' =>
        rw [hs] at h
        dsimp only at h
        rw [Option.map_eq_some'] at h
        obtain ⟨l'', hrest, hl'⟩ := h
        subst hl'
        by_cases htt : t0 = t
        · subst htt
          simp only [alookup, eq_self_iff_true, if_true, Option.some_inj] at hk
          subst hk
          exact ⟨hge, tr0, by simp [alookup], hs⟩
        · simp only [alookup, htt, if_neg] at hk
          obtain ⟨h1, tr, h2, h3⟩ := ih l'' hrest hk
          exact ⟨h1, tr, by simpa [alookup, htt] using h2, h3⟩
    · rw [if_neg hge] at h
      obtain ⟨h1, tr, h2, h3⟩ := ih l' h hk
      by_cases htt : t0 = t
      · subst htt
        exact absurd h1 hge
      · exact ⟨h1, tr, by simpa [alookup, htt] using h2, h3⟩

/-- Every table of the input map with key `>=` the target is retained by
snapTables. -/
theorem snapTables_keep (c : ChunkID) (tid schema : String)
    (l l' : List (String × TableResult))
    (h : snapTables c tid schema l = some l') (t : String) (tr : TableResult)
    (hk : alookup t l = some tr) (hge : strGe (UniqueID schema t) tid = true) :
    ∃ tr', alookup t l' = some tr' ∧ snapTR c tr = some tr' := by
  induction l generalizing l' with
  | nil => simp [alookup] at hk
  | cons p rest ih =>
    obtain ⟨t0, tr0⟩ := p
    rw [snapTables] at h
    by_cases htt : t0 = t
    · subst htt
      simp only [alookup, eq_self_iff_true, if_true, Option.some_inj] at hk
      subst hk
      rw [if_pos hge] at h
      cases hs : snapTR c tr0 with
      | none => rw [hs] at h; simp at h
      | some tr0' =>
        rw [hs] at h
        dsimp only at h
        rw [Option.map_eq_some'] at h
        obtain ⟨l'', hrest, hl'⟩ := h
        subst hl'
        exact ⟨tr0', by simp [alookup], rfl⟩
    · simp only [alookup, htt, if_neg] at hk
      by_cases hge0 : strGe (UniqueID schema t0) tid = true
      · rw [if_pos hge0] at h
        cases hs : snapTR c tr0 with
        | none => rw [hs] at h; simp at h
        | some tr0' =>
          rw [hs] at h
          dsimp only at h
          rw [Option.map_eq_some'] at h
          obtain ⟨l'', hrest, hl'⟩ := h
          subst hl'
          obtain ⟨tr', h1, h2⟩ := ih l'' hrest hk
          exact ⟨tr', by simpa [alookup, htt] using h1, h2⟩
      · rw [if_neg hge0] at h
        exact ih l' h hk


/-- Forward direction of the snapSchemas loop: every schema entry maps to
its filtered entry. -/
theorem snapSchemas_fwd (c : ChunkID) (tid : String)
    (l l' : List (String × List (String × TableResult)))
    (h : snapSchemas c tid l = some l') (s : String)
    (tm : List (String × TableResult)) (hs : alookup s l = some tm) :
    ∃ tm', alookup s l' = some tm' ∧ snapTables c tid s tm = some tm' := by
  induction l generalizing l' with
  | nil => simp [alookup] at hs
  | cons p rest ih =>
    obtain ⟨s0, tm0⟩ := p
    rw [snapSchemas] at h
    cases h0 : snapTables c tid s0 tm0 with
    | none => rw [h0] at h; simp at h
    | some tm0' =>
      rw [h0] at h
      dsimp only at h
      rw [Option.map_eq_some'] at h
      obtain ⟨l'', hrest, hl'⟩ := h
      subst hl'
      by_cases hss : s0 = s
      · subst hss
        simp only [alookup, eq_self_iff_true, if_true, Option.some_inj] at hs
        subst hs
        exact ⟨tm0', by simp [alookup], h0⟩
      · simp only [alookup, hss, if_neg] at hs
        obtain ⟨tm', h1, h2⟩ := ih l'' hrest hs
        exact ⟨tm', by simpa [alookup, hss] using h1, h2⟩

/-- Backward direction of the snapSchemas loop: every entry of the copy
comes from a live schema entry. -/
theorem snapSchemas_bwd (c : ChunkID) (tid : String)
    (l l' : List (String × List (String × TableResult)))
    (h : snapSchemas c tid l = some l') (s : String)
    (tm' : List (String × TableResult)) (hs : alookup s l' = some tm') :
    ∃ tm, alookup s l = some tm ∧ snapTables c tid s tm = some tm' := by
  induction l generalizing l' with
  | nil =>
    simp only [snapSchemas, Option.some_inj] at h
    subst h
    simp [alookup] at hs
  | cons p rest ih =>
    obtain ⟨s0, tm0⟩ := p
    rw [snapSchemas] at h
    cases h0 : snapTables c tid s0 tm0 with
    | none => rw [h0] at h; simp at h
    | some tm0' =>
      rw [h0] at h
      dsimp only at h
      rw [Option.map_eq_some'] at h
      obtain ⟨l'', hrest, hl'⟩ := h
      subst hl'
      by_cases hss : s0 = s
      · subst hss
        simp only [alookup, eq_self_iff_true, if_true, Option.some_inj] at hs
        subst hs
        exact ⟨tm0, by simp [alookup], h0⟩
      · simp only [alookup, hss, if_neg] at hs
        obtain ⟨tm, h1, h2⟩ := ih l'' hrest hs
        exact ⟨tm, by simpa [alookup, hss] using h1, h2⟩

/-- Claim C1: a snapshot returned by GetSnapshot(c, schema, table) contains
no table whose UniqueID is strictly below the target's, and within every
retained table no chunk whose ChunkID compares strictly greater than the
cutoff; conversely every live table with key `>=` the target is retained
(with its StructEqual/DataEqual/MeetError), and within it every live chunk
result whose id parses to a ChunkID `<=` the cutoff is retained. -/
theorem getSnapshot_frontier (r : Report) (now : Int) (c : ChunkID)
    (schema table : String) (snap : Report)
    (h : r.GetSnapshot now c schema table = some snap) :
    (∀ s t tr', lookupTR snap s t = some tr' →
      strGe (UniqueID s t) (UniqueID schema table) = true) ∧
    (∀ s t tr' k cr, lookupTR snap s t = some tr' → alookup k tr'.ChunkMap = some cr →
      ∃ sid, ChunkID.FromString k = some sid ∧ sid.Compare c ≤ 0) ∧
    (∀ s t tr, lookupTR r s t = some tr →
      strGe (UniqueID s t) (UniqueID schema table) = true →
      ∃ tr', lookupTR snap s t = some tr' ∧
        tr'.StructEqual = tr.StructEqual ∧ tr'.DataEqual = tr.DataEqual ∧
        tr'.MeetError = tr.MeetError ∧
        ∀ k cr sid, alookup k tr.ChunkMap = some cr →
          ChunkID.FromString k = some sid → sid.Compare c ≤ 0 →
          alookup k tr'.ChunkMap = some cr) := by
  unfold Report.GetSnapshot at h
  rw [Option.map_eq_some'] at h
  obtain ⟨m, hm, hsnap⟩ := h
  have hTR : snap.TableResults = m := by rw [← hsnap]
  refine ⟨?_, ?_, ?_⟩
  · intro s t tr' hl
    unfold lookupTR at hl
    rw [hTR] at hl
    cases hs : alookup s m with
    | none => rw [hs] at hl; simp at hl
    | some tm' =>
      rw [hs, Option.some_bind] at hl
      obtain ⟨tm, -, h2⟩ := snapSchemas_bwd c _ _ m hm s tm' hs
      exact (snapTables_sub c _ s tm tm' h2 t tr' hl).1
  · intro s t tr' k cr hl hk
    unfold lookupTR at hl
    rw [hTR] at hl
    cases hs : alookup s m with
    | none => rw [hs] at hl; simp at hl
    | some tm' =>
      rw [hs, Option.some_bind] at hl
      obtain ⟨tm, -, h2⟩ := snapSchemas_bwd c _ _ m hm s tm' hs
      obtain ⟨-, tr, -, h3⟩ := snapTables_sub c _ s tm tm' h2 t tr' hl
      obtain ⟨cm, hcm, htr'⟩ := snapTR_eq c tr tr' h3
      rw [htr'] at hk
      obtain ⟨sid, h4, h5, -⟩ := filterChunks_sub c tr.ChunkMap cm hcm k cr hk
      exact ⟨sid, h4, h5⟩
  · intro s t tr hl hge
    unfold lookupTR at hl
    cases hs : alookup s r.TableResults with
    | none => rw [hs] at hl; simp at hl
    | some tm =>
      rw [hs, Option.some_bind] at hl
      obtain ⟨tm', h1, h2⟩ := snapSchemas_fwd c _ _ m hm s tm hs
      obtain ⟨tr', h3, h4⟩ := snapTables_keep c _ s tm tm' h2 t tr hl hge
      obtain ⟨cm, hcm, htr'⟩ := snapTR_eq c tr tr' h4
      refine ⟨tr', ?_, by rw [htr'], by rw [htr'], by rw [htr'], ?_⟩
      · unfold lookupTR
        rw [hTR, h1, Option.some_bind, h3]
      · intro k cr sid hk hp hc
        rw [htr']
        exact filterChunks_keep c tr.ChunkMap cm hcm k cr sid hk hp hc

def cW : ChunkID := ⟨0, 0, 1⟩

def rW : Report := (NewReport cfg0).Init 0 [⟨dbS, t1S⟩] [] ""

def snapW : Report := (rW.GetSnapshot 5 cW dbS t1S).getD (NewReport cfg0)

/-- Witness for C1: a concrete snapshot at the target's own key retains the
target table, whose ordering key is `>=` itself. -/
theorem getSnapshot_frontier_witness :
    rW.GetSnapshot 5 cW dbS t1S = some snapW ∧
    strGe (UniqueID dbS t1S) (UniqueID dbS t1S) = true :=
  ⟨by decide,
    (getSnapshot_frontier rW 5 cW dbS t1S snapW (by decide)).1 dbS t1S
      (freshTableResult dbS t1S) (by decide)⟩

end SyncDiffReport

namespace SyncDiffReport

/-! ## Claim C8 -/

/-- Does the pattern occur at the head of the text? -/
def matchesAt : List Char → List Char → Bool
  | [], _ => true
  | _ :: _, [] => false
  | a :: as, b :: bs => a == b && matchesAt as bs

/-- Does the pattern occur anywhere in the text? -/
def containsChars (pat : List Char) : List Char → Bool
  | [] => matchesAt pat []
  | c :: rest => matchesAt pat (c :: rest) || containsChars pat rest

/-- Substring test over the character data. -/
def strContains (s pat : String) : Bool := containsChars pat.data s.data

def rC8cex : Report :=
  ((((NewReport cfg0).Init 0 [⟨dbS, t1S⟩, ⟨dbS, t2S⟩] [] "").SetTableStructCheckResult
      dbS t1S false false).bind
    (fun r => r.SetTableMeetError dbS t2S eBoom)).getD (NewReport cfg0)

/-- Claim C8 (counterexample): a report that has a failing table (db.t1,
StructEqual false) but whose overall Result is `error` (after db.t2 met an
error) gets a summary with no inconsistent-tables table at all — the
section is emitted only when Result is `fail`. -/
theorem commitSummary_error_hides_failures :
    rC8cex.Result = Error ∧
    (lookupTR rC8cex dbS t1S).map (fun tr => tr.StructEqual) = some false ∧
    rC8cex.getDiffRows ≠ [] ∧
    strContains ((rC8cex.CommitSummary 0).2) (joinCells diffHeader) = false ∧
    strContains ((rC8cex.CommitSummary 0).2) "inconsistent" = false := by
  decide

/-- Claim C8 (amended): when the overall Result is `fail`, the summary text
is exactly the head section (configs and the fully-equal-table list)
followed by the inconsistent-tables table rendered from getDiffRows and
the time/speed tail; every table that is not fully equal contributes its
getDiffRows row, whose third cell is plus-added slash minus-deleted summed
over its recorded ChunkResults. -/
theorem commitSummary_fail_layout (r : Report) (now : Int) (h : r.Result = Fail) :
    (r.CommitSummary now).2 =
      summaryHead r ++
        ("\nThe following tables contains inconsistent data\n\n" ++
          renderTable diffHeader r.getDiffRows) ++
        summaryTail r now ∧
    ∀ s t tr, lookupTR r s t = some tr →
      ¬(tr.StructEqual = true ∧ tr.DataEqual = true) →
      diffRowFor s t tr ∈ r.getDiffRows := by
  constructor
  · unfold Report.CommitSummary
    dsimp only
    rw [if_pos h]
  · intro s t tr hl hne
    unfold lookupTR at hl
    cases hs : alookup s r.TableResults with
    | none => rw [hs] at hl; simp at hl
    | some tm =>
      rw [hs, Option.some_bind] at hl
      unfold Report.getDiffRows
      rw [List.mem_flatMap]
      refine ⟨(s, tm), alookup_mem s tm r.TableResults hs, ?_⟩
      rw [List.mem_map]
      refine ⟨(t, tr), List.mem_filter.mpr ⟨alookup_mem t tr tm hl, ?_⟩, rfl⟩
      cases hA : tr.StructEqual <;> cases hB : tr.DataEqual <;> simp_all

def rC8w : Report :=
  (((NewReport cfg0).Init 0 [⟨dbS, t1S⟩] [] "").SetTableStructCheckResult
      dbS t1S false false).getD (NewReport cfg0)

/-- Witness for C8 (amended): a concrete failed report's summary carries
the rendered diff table between head and tail. -/
theorem commitSummary_fail_layout_witness :
    rC8w.Result = Fail ∧
    (rC8w.CommitSummary 3).2 =
      summaryHead rC8w ++
        ("\nThe following tables contains inconsistent data\n\n" ++
          renderTable diffHeader rC8w.getDiffRows) ++
        summaryTail rC8w 3 :=
  ⟨by decide, (commitSummary_fail_layout rC8w 3 (by decide)).1⟩

end SyncDiffReport

namespace SyncDiffReport

/-! ## Claim C5 -/

/-- Overall Result of an optional report (none where Go panicked). -/
def resultOf (o : Option Report) : Option String := o.map (fun r => r.Result)

/-- DataEqual of one table of an optional report. -/
def deqAt (o : Option Report) (s t : String) : Option Bool :=
  o.bind (fun r => (lookupTR r s t).map (fun tr => tr.DataEqual))

/-- One ChunkResult of one table of an optional report. -/
def chunkAt (o : Option Report) (s t k : String) : Option ChunkResult :=
  o.bind (fun r => (lookupTR r s t).bind (fun tr => alookup k tr.ChunkMap))

/-- The TableResult SetTableDataCheckResult writes back on an unequal
chunk: DataEqual cleared, the chunk's counts accumulated. -/
def updatedTR (o : DataOutcome) (tr : TableResult) : TableResult :=
  { tr with
    DataEqual := false,
    ChunkMap := alistInsert o.Id.ToString
      { RowsAdd := ((alookup o.Id.ToString tr.ChunkMap).getD
          { RowsAdd := 0, RowsDelete := 0 }).RowsAdd + o.RowsAdd,
        RowsDelete := ((alookup o.Id.ToString tr.ChunkMap).getD
          { RowsAdd := 0, RowsDelete := 0 }).RowsDelete + o.RowsDelete }
      tr.ChunkMap }

/-- The whole report SetTableDataCheckResult produces on an unequal chunk
whose table entry is `tr`. -/
def applyUnequal (r : Report) (o : DataOutcome) (tr : TableResult) : Report :=
  let u := updateTR r o.Schema o.Table (updatedTR o tr)
  if u.Result ≠ Error then { u with Result := Fail } else u

theorem applyOutcome_equal (r : Report) (o : DataOutcome) (he : o.Equal = true) :
    applyOutcome r o = some r := by
  unfold applyOutcome Report.SetTableDataCheckResult
  rw [if_pos he]

theorem applyOutcome_none_iff (r : Report) (o : DataOutcome) :
    applyOutcome r o = none ↔
      o.Equal = false ∧ lookupTR r o.Schema o.Table = none := by
  unfold applyOutcome Report.SetTableDataCheckResult
  by_cases he : o.Equal = true
  · rw [if_pos he]; simp [he]
  · rw [if_neg he]
    rw [Bool.not_eq_true] at he
    cases hl : lookupTR r o.Schema o.Table <;> simp [he, hl]

theorem applyOutcome_unequal (r : Report) (o : DataOutcome) (tr : TableResult)
    (he : o.Equal = false) (hl : lookupTR r o.Schema o.Table = some tr) :
    applyOutcome r o = some (applyUnequal r o tr) := by
  unfold applyOutcome Report.SetTableDataCheckResult
  rw [if_neg (by rw [he]; exact Bool.false_ne_true), hl]
  simp only [Option.map_some', Option.some_inj]
  rfl

theorem applyUnequal_Result (r : Report) (o : DataOutcome) (tr : TableResult) :
    (applyUnequal r o tr).Result = if r.Result = Error then Error else Fail := by
  unfold applyUnequal
  dsimp only
  by_cases hE : r.Result = Error
  · rw [if_neg (by rw [updateTR_Result]; simpa using hE), if_pos hE]
    rw [updateTR_Result, hE]
  · rw [if_pos (by rw [updateTR_Result]; simpa using hE), if_neg hE]

theorem lookupTR_result_irrelevant (u : Report) (x : String) (s t : String) :
    lookupTR { u with Result := x } s t = lookupTR u s t := rfl

theorem applyUnequal_lookup (r : Report) (o : DataOutcome) (tr : TableResult)
    (tm : List (String × TableResult))
    (hm : alookup o.Schema r.TableResults = some tm) (s t : String) :
    lookupTR (applyUnequal r o tr) s t =
      if o.Schema = s ∧ o.Table = t then some (updatedTR o tr) else lookupTR r s t := by
  unfold applyUnequal
  dsimp only
  have hu : ∀ v : Report, v = updateTR r o.Schema o.Table (updatedTR o tr) →
      lookupTR v s t =
        if o.Schema = s ∧ o.Table = t then some (updatedTR o tr) else lookupTR r s t :=
    fun v hv => by rw [hv]; exact lookupTR_updateTR r o.Schema o.Table _ s t tm hm
  split
  · rw [lookupTR_result_irrelevant]
    exact hu _ rfl
  · exact hu _ rfl

/-- Success of one outcome keeps the presence of every table entry. -/
theorem applyOutcome_presence (r r1 : Report) (o : DataOutcome)
    (h : applyOutcome r o = some r1) (s t : String) :
    (lookupTR r1 s t).isSome = (lookupTR r s t).isSome := by
  by_cases he : o.Equal = true
  · rw [applyOutcome_equal r o he, Option.some_inj] at h
    rw [← h]
  · rw [Bool.not_eq_true] at he
    cases hl : lookupTR r o.Schema o.Table with
    | none =>
      rw [(applyOutcome_none_iff r o).mpr ⟨he, hl⟩] at h
      cases h
    | some tr =>
      rw [applyOutcome_unequal r o tr he hl, Option.some_inj] at h
      obtain ⟨tm, hm⟩ : ∃ tm, alookup o.Schema r.TableResults = some tm := by
        unfold lookupTR at hl
        cases hx : alookup o.Schema r.TableResults with
        | none => rw [hx] at hl; simp at hl
        | some tm => exact ⟨tm, rfl⟩
      rw [← h, applyUnequal_lookup r o tr tm hm s t]
      by_cases hc : o.Schema = s ∧ o.Table = t
      · rw [if_pos hc, ← hc.1, ← hc.2, hl]
        rfl
      · rw [if_neg hc]

end SyncDiffReport

namespace SyncDiffReport

/-- Destructor for a successful nested lookup. -/
theorem lookupTR_schema (r : Report) (s t : String) (tr : TableResult)
    (h : lookupTR r s t = some tr) :
    ∃ tm, alookup s r.TableResults = some tm ∧ alookup t tm = some tr := by
  unfold lookupTR at h
  cases hx : alookup s r.TableResults with
  | none => rw [hx] at h; simp at h
  | some tm => rw [hx, Option.some_bind] at h; exact ⟨tm, rfl, h⟩

/-- An outcome that flips this table's DataEqual. -/
def hitsTable (s t : String) (o : DataOutcome) : Bool :=
  !o.Equal && (o.Schema == s) && (o.Table == t)

/-- An outcome that accumulates into this table's chunk `k`. -/
def outcomeHits (s t k : String) (o : DataOutcome) : Bool :=
  hitsTable s t o && (o.Id.ToString == k)

/-- The final value of one ChunkResult after a batch of outcomes, as a
function of the multiset of relevant outcomes only. -/
def chunkAfter (os : List DataOutcome) (s t k : String) (base : Option ChunkResult) :
    Option ChunkResult :=
  let rel := os.filter (outcomeHits s t k)
  if rel.isEmpty then base
  else
    some { RowsAdd := (base.getD { RowsAdd := 0, RowsDelete := 0 }).RowsAdd +
             (rel.map (fun o => o.RowsAdd)).sum,
           RowsDelete := (base.getD { RowsAdd := 0, RowsDelete := 0 }).RowsDelete +
             (rel.map (fun o => o.RowsDelete)).sum }

/-- The whole batch panics exactly when one unequal outcome names a table
with no entry. -/
theorem applyOutcomes_none_iff (os : List DataOutcome) (r : Report) :
    applyOutcomes os r = none ↔
      ∃ o ∈ os, o.Equal = false ∧ lookupTR r o.Schema o.Table = none := by
  induction os generalizing r with
  | nil => simp [applyOutcomes]
  | cons o os ih =>
    rw [applyOutcomes]
    cases hstep : applyOutcome r o with
    | none =>
      simp only [Option.none_bind]
      obtain ⟨he, hl⟩ := (applyOutcome_none_iff r o).mp hstep
      simp only [List.mem_cons]
      exact ⟨fun _ => ⟨o, Or.inl rfl, he, hl⟩, fun _ => trivial⟩
    | some r1 =>
      simp only [Option.some_bind]
      rw [ih r1]
      have hpres := applyOutcome_presence r r1 o hstep
      constructor
      · rintro ⟨o', ho', he', hl'⟩
        refine ⟨o', List.mem_cons_of_mem _ ho', he', ?_⟩
        have hiso := hpres o'.Schema o'.Table
        rw [hl'] at hiso
        cases hx : lookupTR r o'.Schema o'.Table with
        | none => rfl
        | some tr =>
          exfalso
          rw [hx] at hiso
          simp at hiso
      · rintro ⟨o', ho', he', hl'⟩
        rcases List.mem_cons.mp ho' with h1 | h2
        · exfalso
          subst h1
          have : applyOutcome r o' = none := (applyOutcome_none_iff r o').mpr ⟨he', hl'⟩
          rw [hstep] at this
          cases this
        · refine ⟨o', h2, he', ?_⟩
          have hiso := hpres o'.Schema o'.Table
          rw [hl'] at hiso
          cases hx : lookupTR r1 o'.Schema o'.Table with
          | none => rfl
          | some tr =>
            exfalso
            rw [hx] at hiso
            simp at hiso

theorem fail_ne_error : Fail ≠ Error := by decide

/-- Final Result of a successful batch. -/
theorem applyOutcomes_Result (os : List DataOutcome) (r r' : Report)
    (h : applyOutcomes os r = some r') :
    r'.Result =
      if os.any (fun o => !o.Equal) then (if r.Result = Error then Error else Fail)
      else r.Result := by
  induction os generalizing r with
  | nil =>
    simp only [applyOutcomes, Option.some_inj] at h
    subst h
    simp
  | cons o os ih =>
    rw [applyOutcomes] at h
    cases hstep : applyOutcome r o with
    | none => rw [hstep] at h; cases h
    | some r1 =>
      rw [hstep, Option.some_bind] at h
      have hr' := ih r1 h
      by_cases he : o.Equal = true
      · have hr1 : r1 = r := by
          rw [applyOutcome_equal r o he] at hstep
          exact (Option.some_inj.mp hstep).symm
        subst hr1
        rw [hr']
        simp [List.any_cons, he]
      · rw [Bool.not_eq_true] at he
        cases hl : lookupTR r o.Schema o.Table with
        | none =>
          rw [(applyOutcome_none_iff r o).mpr ⟨he, hl⟩] at hstep
          cases hstep
        | some tr =>
          rw [applyOutcome_unequal r o tr he hl, Option.some_inj] at hstep
          have hres1 : r1.Result = if r.Result = Error then Error else Fail := by
            rw [← hstep]
            exact applyUnequal_Result r o tr
          rw [hr', hres1]
          by_cases hE : r.Result = Error <;>
            by_cases ha : os.any (fun o => !o.Equal) = true <;>
            simp [List.any_cons, he, hE, ha, fail_ne_error]

/-- Final DataEqual of one table after a successful batch. -/
theorem applyOutcomes_deq (os : List DataOutcome) (r r' : Report) (s t : String)
    (h : applyOutcomes os r = some r') :
    (lookupTR r' s t).map (fun tr => tr.DataEqual) =
      if os.any (hitsTable s t) then some false
      else (lookupTR r s t).map (fun tr => tr.DataEqual) := by
  induction os generalizing r with
  | nil =>
    simp only [applyOutcomes, Option.some_inj] at h
    subst h
    simp
  | cons o os ih =>
    rw [applyOutcomes] at h
    cases hstep : applyOutcome r o with
    | none => rw [hstep] at h; cases h
    | some r1 =>
      rw [hstep, Option.some_bind] at h
      have hrec := ih r1 h
      by_cases he : o.Equal = true
      · have hr1 : r1 = r := by
          rw [applyOutcome_equal r o he] at hstep
          exact (Option.some_inj.mp hstep).symm
        subst hr1
        rw [hrec]
        simp [List.any_cons, hitsTable, he]
      · rw [Bool.not_eq_true] at he
        cases hl : lookupTR r o.Schema o.Table with
        | none =>
          rw [(applyOutcome_none_iff r o).mpr ⟨he, hl⟩] at hstep
          cases hstep
        | some tr =>
          rw [applyOutcome_unequal r o tr he hl, Option.some_inj] at hstep
          obtain ⟨tm, hm, -⟩ := lookupTR_schema r o.Schema o.Table tr hl
          have hlook := applyUnequal_lookup r o tr tm hm s t
          rw [hstep] at hlook
          by_cases hht : o.Schema = s ∧ o.Table = t
          · have hhead : hitsTable s t o = true := by
              unfold hitsTable
              simp [he, hht.1, hht.2]
            rw [hrec, hlook, if_pos hht]
            by_cases ha : os.any (hitsTable s t) = true <;>
              simp [List.any_cons, hhead, ha, updatedTR]
          · have hhead : hitsTable s t o = false := by
              unfold hitsTable
              rcases not_and_or.mp hht with hx | hx <;> simp [he, hx]
            rw [hrec, hlook, if_neg hht]
            simp [List.any_cons, hhead]

theorem chunkAfter_cons_miss (o : DataOutcome) (os : List DataOutcome) (s t k : String)
    (base : Option ChunkResult) (h : outcomeHits s t k o = false) :
    chunkAfter (o :: os) s t k base = chunkAfter os s t k base := by
  have hfil : (o :: os).filter (outcomeHits s t k) = os.filter (outcomeHits s t k) := by
    rw [List.filter_cons, if_neg (by simp [h])]
  unfold chunkAfter
  rw [hfil]

theorem chunkAfter_cons_hit (o : DataOutcome) (os : List DataOutcome) (s t k : String)
    (base : Option ChunkResult) (h : outcomeHits s t k o = true) :
    chunkAfter (o :: os) s t k base =
      chunkAfter os s t k
        (some { RowsAdd := (base.getD { RowsAdd := 0, RowsDelete := 0 }).RowsAdd + o.RowsAdd,
                RowsDelete :=
                  (base.getD { RowsAdd := 0, RowsDelete := 0 }).RowsDelete + o.RowsDelete }) := by
  have hfil : (o :: os).filter (outcomeHits s t k) = o :: os.filter (outcomeHits s t k) := by
    rw [List.filter_cons, if_pos (by simp [h])]
  unfold chunkAfter
  rw [hfil]
  dsimp only
  by_cases hre : (os.filter (outcomeHits s t k)).isEmpty = true
  · have h0 : os.filter (outcomeHits s t k) = [] := List.isEmpty_iff.mp hre
    rw [h0]
    simp
  · rw [if_neg (by simp), if_neg (by simpa using hre)]
    simp [Option.getD_some, add_assoc]

/-- Final value of one ChunkResult after a successful batch. -/
theorem applyOutcomes_chunk (os : List DataOutcome) (r r' : Report) (s t k : String)
    (h : applyOutcomes os r = some r') :
    (lookupTR r' s t).bind (fun tr => alookup k tr.ChunkMap) =
      chunkAfter os s t k ((lookupTR r s t).bind (fun tr => alookup k tr.ChunkMap)) := by
  induction os generalizing r with
  | nil =>
    simp only [applyOutcomes, Option.some_inj] at h
    subst h
    unfold chunkAfter
    simp
  | cons o os ih =>
    rw [applyOutcomes] at h
    cases hstep : applyOutcome r o with
    | none => rw [hstep] at h; cases h
    | some r1 =>
      rw [hstep, Option.some_bind] at h
      have hrec := ih r1 h
      by_cases he : o.Equal = true
      · have hr1 : r1 = r := by
          rw [applyOutcome_equal r o he] at hstep
          exact (Option.some_inj.mp hstep).symm
        subst hr1
        rw [hrec, chunkAfter_cons_miss]
        unfold outcomeHits hitsTable
        simp [he]
      · rw [Bool.not_eq_true] at he
        cases hl : lookupTR r o.Schema o.Table with
        | none =>
          rw [(applyOutcome_none_iff r o).mpr ⟨he, hl⟩] at hstep
          cases hstep
        | some tr =>
          rw [applyOutcome_unequal r o tr he hl, Option.some_inj] at hstep
          obtain ⟨tm, hm, -⟩ := lookupTR_schema r o.Schema o.Table tr hl
          have hlook := applyUnequal_lookup r o tr tm hm s t
          rw [hstep] at hlook
          by_cases hht : o.Schema = s ∧ o.Table = t
          · have hlst : lookupTR r s t = some tr := by
              rw [← hht.1, ← hht.2]
              exact hl
            by_cases hkk : o.Id.ToString = k
            · have hhits : outcomeHits s t k o = true := by
                unfold outcomeHits hitsTable
                simp [he, hht.1, hht.2, hkk]
              rw [hrec, hlook, if_pos hht, chunkAfter_cons_hit o os s t k _ hhits, hlst]
              congr 1
              rw [← hkk]
              simp only [Option.some_bind]
              unfold updatedTR
              dsimp only
              rw [alookup_insert, if_pos rfl]
            · have hmiss : outcomeHits s t k o = false := by
                unfold outcomeHits hitsTable
                simp [hkk]
              rw [hrec, hlook, if_pos hht, chunkAfter_cons_miss o os s t k _ hmiss, hlst]
              congr 1
              simp only [Option.some_bind]
              unfold updatedTR
              dsimp only
              rw [alookup_insert, if_neg hkk]
          · have hmiss : outcomeHits s t k o = false := by
              unfold outcomeHits hitsTable
              rcases not_and_or.mp hht with hx | hx <;> simp [he, hx]
            rw [hrec, hlook, if_neg hht, chunkAfter_cons_miss o os s t k _ hmiss]

end SyncDiffReport

namespace SyncDiffReport

/-- `any` is invariant under permutation. -/
theorem perm_any {α : Type} (p : α → Bool) (l l' : List α) (h : l.Perm l') :
    l.any p = l'.any p := by
  rw [Bool.eq_iff_iff, List.any_eq_true, List.any_eq_true]
  constructor <;> rintro ⟨x, hx, hpx⟩
  · exact ⟨x, h.mem_iff.mp hx, hpx⟩
  · exact ⟨x, h.mem_iff.mpr hx, hpx⟩

/-- The final chunk value depends only on the multiset of outcomes. -/
theorem chunkAfter_perm (os os' : List DataOutcome) (s t k : String)
    (base : Option ChunkResult) (h : os.Perm os') :
    chunkAfter os s t k base = chunkAfter os' s t k base := by
  have hrel : (os.filter (outcomeHits s t k)).Perm (os'.filter (outcomeHits s t k)) :=
    h.filter _
  have hie : (os.filter (outcomeHits s t k)).isEmpty =
      (os'.filter (outcomeHits s t k)).isEmpty := by
    rw [Bool.eq_iff_iff, List.isEmpty_iff_length_eq_zero, List.isEmpty_iff_length_eq_zero,
      hrel.length_eq]
  unfold chunkAfter
  dsimp only
  rw [hie, (hrel.map (fun o => o.RowsAdd)).sum_eq, (hrel.map (fun o => o.RowsDelete)).sum_eq]

/-- Claim C5: applying the same multiset of chunk outcomes through
SetTableDataCheckResult in any order, from the same starting report, gives
the same overall Result, the same DataEqual flag for every table, and the
same RowsAdd/RowsDelete totals in every ChunkResult (and the two runs
agree on panicking too: both are `none` or both succeed). -/
theorem setTableDataCheckResult_commutes (os os' : List DataOutcome) (r : Report)
    (hp : os.Perm os') :
    resultOf (applyOutcomes os r) = resultOf (applyOutcomes os' r) ∧
    (∀ s t, deqAt (applyOutcomes os r) s t = deqAt (applyOutcomes os' r) s t) ∧
    (∀ s t k, chunkAt (applyOutcomes os r) s t k = chunkAt (applyOutcomes os' r) s t k) := by
  have hnone : applyOutcomes os r = none ↔ applyOutcomes os' r = none := by
    rw [applyOutcomes_none_iff, applyOutcomes_none_iff]
    constructor <;> rintro ⟨o, ho, hrest⟩
    · exact ⟨o, hp.mem_iff.mp ho, hrest⟩
    · exact ⟨o, hp.mem_iff.mpr ho, hrest⟩
  cases h1 : applyOutcomes os r with
  | none =>
    rw [hnone] at h1
    rw [h1]
    exact ⟨rfl, fun s t => rfl, fun s t k => rfl⟩
  | some r1 =>
    cases h2 : applyOutcomes os' r with
    | none =>
      exfalso
      rw [← hnone] at h2
      rw [h1] at h2
      cases h2
    | some r2 =>
      refine ⟨?_, ?_, ?_⟩
      · unfold resultOf
        rw [Option.map_some', Option.map_some', applyOutcomes_Result os r r1 h1,
          applyOutcomes_Result os' r r2 h2, perm_any _ _ _ hp]
      · intro s t
        unfold deqAt
        rw [Option.some_bind, Option.some_bind, applyOutcomes_deq os r r1 s t h1,
          applyOutcomes_deq os' r r2 s t h2, perm_any _ _ _ hp]
      · intro s t k
        unfold chunkAt
        rw [Option.some_bind, Option.some_bind, applyOutcomes_chunk os r r1 s t k h1,
          applyOutcomes_chunk os' r r2 s t k h2, chunkAfter_perm os os' s t k _ hp]

def osC5 : List DataOutcome :=
  [⟨dbS, t1S, false, 1, 2, ⟨0, 0, 2⟩⟩, ⟨dbS, t1S, false, 3, 4, ⟨0, 1, 2⟩⟩]

def osC5' : List DataOutcome :=
  [⟨dbS, t1S, false, 3, 4, ⟨0, 1, 2⟩⟩, ⟨dbS, t1S, false, 1, 2, ⟨0, 0, 2⟩⟩]

/-- Witness for C5: two concrete interleavings of the same two unequal
chunk outcomes agree on the final Result. -/
theorem setTableDataCheckResult_commutes_witness :
    List.Perm osC5 osC5' ∧
    resultOf (applyOutcomes osC5 r7base) = resultOf (applyOutcomes osC5' r7base) :=
  ⟨by decide, (setTableDataCheckResult_commutes osC5 osC5' r7base (by decide)).1⟩

end SyncDiffReport
